import Mathlib

/-!
Shallow embedding of the Myriget link-processing pipeline.

Sources embedded here:
- `src/models/link.py` (`LinkManager`): name sanitisation, URL-list import,
  manifest merge, batch processing, download validation, by-size packing.
- `src/operations/iso2god.py` (`ISO2GODConverter.convert_iso_to_god`):
  subprocess read loop with liveness timeout and GOD-file success signal.
- `src/gui/app.py` (`DownloaderApp._fix_links_issues`, `LINK_SCHEMA`):
  manifest fix-up with canonical defaults.

Python dict entries are modelled as a structure whose fields are `Option`
values: `none` means the key is absent, `some v` that it is present with
value `v`.  Nullable JSON values use a nested `Option` (`some none` is a
present key holding `null`).  String functions model the ASCII fragment of
the Python library calls they embed (`os.path.basename` splitting on `/`,
`urllib.parse.unquote` on single-byte `%XX` escapes, `str.capitalize`
upper-casing the first character and lower-casing the rest).
-/

/-- Python `os.path.basename` on a POSIX path: the part after the last `/`. -/
def pyBasename (s : String) : String :=
  String.mk ((s.toList.reverse.takeWhile (fun c => c ≠ '/')).reverse)

/-- Value of a hexadecimal digit, as used by percent-decoding. -/
def unhexDigit (c : Char) : Option Nat :=
  if '0' ≤ c ∧ c ≤ '9' then some (c.toNat - '0'.toNat)
  else if 'a' ≤ c ∧ c ≤ 'f' then some (c.toNat - 'a'.toNat + 10)
  else if 'A' ≤ c ∧ c ≤ 'F' then some (c.toNat - 'A'.toNat + 10)
  else none

/-- Python `urllib.parse.unquote` restricted to single-byte escapes: a `%`
followed by two hex digits decodes to that character; malformed escapes are
kept verbatim.  Fuel-based recursion (each step consumes at least one input
character, so `fuel = length` always suffices). -/
def pyUnquoteAux : Nat → List Char → List Char
  | 0, cs => cs
  | _ + 1, [] => []
  | fuel + 1, c :: rest =>
    if c = '%' then
      match rest with
      | a :: b :: rest2 =>
        match unhexDigit a, unhexDigit b with
        | some ha, some hb => Char.ofNat (16 * ha + hb) :: pyUnquoteAux fuel rest2
        | _, _ => '%' :: pyUnquoteAux fuel rest
      | _ => c :: pyUnquoteAux fuel rest
    else c :: pyUnquoteAux fuel rest

/-- Python `urllib.parse.unquote` (ASCII fragment). -/
def pyUnquote (cs : List Char) : List Char := pyUnquoteAux cs.length cs

/-- Python `os.path.splitext(name)[0]` on a basename: drop the suffix that
starts at the last dot, provided some character before that dot is not
itself a dot (so `.bashrc` keeps its name). -/
def pyStripExt (cs : List Char) : List Char :=
  match (cs.reverse.findIdx? (fun c => c = '.')) with
  | none => cs
  | some i =>
    let p := cs.length - 1 - i
    if (cs.take p).any (fun c => c ≠ '.') then cs.take p else cs

/-- Python `str.split()` with no separator: split on runs of whitespace,
dropping empty words.  `acc` holds the current word reversed. -/
def pyWordsAux : List Char → List Char → List (List Char)
  | [], acc => if acc.isEmpty then [] else [acc.reverse]
  | c :: rest, acc =>
    if c.isWhitespace then
      if acc.isEmpty then pyWordsAux rest [] else acc.reverse :: pyWordsAux rest []
    else pyWordsAux rest (c :: acc)

/-- Python `str.split()` on a character list. -/
def pyWords (cs : List Char) : List (List Char) := pyWordsAux cs []

/-- Python `str.capitalize()`: first character upper-cased, the rest
lower-cased. -/
def pyCapitalize : List Char → List Char
  | [] => []
  | c :: rest => c.toUpper :: rest.map Char.toLower

/-- Python `str.rstrip()`: drop trailing whitespace. -/
def pyRstrip (cs : List Char) : List Char :=
  (cs.reverse.dropWhile Char.isWhitespace).reverse

/-- Python `str.upper()` (ASCII fragment). -/
def pyUpper (s : String) : String := String.mk (s.toList.map Char.toUpper)

/-- Python `str.lower()` (ASCII fragment). -/
def pyLower (s : String) : String := String.mk (s.toList.map Char.toLower)

/-- Python `str.endswith(suffix)` (used as `f.endswith('.000')` and for the
spec's archive extensions). -/
def pyEndswith (s suffix : String) : Bool :=
  List.isSuffixOf suffix.toList s.toList

/-- Python `str.strip()`: drop leading and trailing whitespace. -/
def pyStrip (s : String) : String :=
  String.mk (((s.toList.dropWhile Char.isWhitespace).reverse.dropWhile
    Char.isWhitespace).reverse)

/-- One manifest entry (a JSON object).  A field is `none` when the key is
absent from the dict.  `url` is mandatory: every embedded operation indexes
it directly, as the source does with `link['url']`. -/
structure LinkEntry where
  url : String
  link_type : Option String := none
  name : Option String := none
  size_bytes : Option Nat := none
  enabled : Option Bool := none
  processed : Option Bool := none
  downloaded : Option Bool := none
  extracted : Option Bool := none
  deleted : Option Bool := none
  copied : Option Bool := none
  imported : Option Bool := none
  import_date : Option (Option String) := none
  output_path : Option (Option String) := none
  god_converted : Option Bool := none
  god_conversion_date : Option (Option String) := none
  god_output_path : Option (Option String) := none
  god_conversion_error : Option (Option String) := none
  god_conversion_progress : Option Nat := none
  god_conversion_started : Option Bool := none
  god_conversion_completed : Option Bool := none
  deriving Repr, DecidableEq

/-- `LinkManager._sanitize_game_name` (`src/models/link.py:28`): basename,
percent-decode, strip extension, replace `_`/`-`/`+` by spaces, keep only
alphanumerics and space/hyphen, collapse whitespace, capitalize each word,
truncate to 200 characters with a trailing rstrip.  The Python `try` body
never fails on the modelled operations, so the fallback branch is dead. -/
def sanitize_game_name (url : String) : String :=
  let filename := (pyBasename url).toList
  let filename := pyUnquote filename
  let name := pyStripExt filename
  let name := name.map (fun c => if c = '_' ∨ c = '-' ∨ c = '+' then ' ' else c)
  let name := name.filter (fun c => c.isAlphanum ∨ c = ' ' ∨ c = '-')
  let name := List.intercalate [' '] (pyWords name)
  let name := List.intercalate [' '] ((pyWords name).map pyCapitalize)
  let name := if name.length > 200 then pyRstrip (name.take 200) else name
  String.mk name

/-- The dict literal built for each input URL by
`LinkManager.process_urls_file` (`src/models/link.py:735`): exactly the keys
`url` (stripped), `downloaded`, `extracted`, `deleted`, `copied`,
`size_bytes` and `link_type`. -/
def mkUrlLink (url : String) (link_type : String) : LinkEntry :=
  { url := pyStrip url
    downloaded := some false
    extracted := some false
    deleted := some false
    copied := some false
    size_bytes := some 0
    link_type := some link_type }

/-- `LinkManager.process_urls_file` in `append` mode
(`src/models/link.py:716`): build an entry per input URL, keep only those
whose URL is not already in the existing manifest, and append them. -/
def process_urls_file_append (existing : List LinkEntry) (urls : List String)
    (link_type : String) : List LinkEntry :=
  let newLinks := urls.map (fun u => mkUrlLink u link_type)
  let existingUrls := existing.map (fun l => l.url)
  let newLinks := newLinks.filter (fun l => ¬ existingUrls.contains l.url)
  existing ++ newLinks

/-- A sequence of `process_urls_file` append calls, each one a list of input
URLs together with its link type. -/
def process_urls_seq (init : List LinkEntry)
    (calls : List (List String × String)) : List LinkEntry :=
  calls.foldl (fun acc c => process_urls_file_append acc c.1 c.2) init

/-- The in-place size update a duplicate secondary entry performs on the
first matching primary entry (`src/models/link.py:903`): copy `size_bytes`
only when the primary value is zero or missing and the secondary value is
nonzero. -/
def mergeUpdateFirst : List LinkEntry → LinkEntry → List LinkEntry × Bool
  | [], _ => ([], false)
  | old :: rest, newLink =>
    if old.url = newLink.url then
      if old.size_bytes.getD 0 = 0 ∧ newLink.size_bytes.getD 0 ≠ 0 then
        ({ old with size_bytes := newLink.size_bytes } :: rest, true)
      else (old :: rest, false)
    else
      (old :: (mergeUpdateFirst rest newLink).1, (mergeUpdateFirst rest newLink).2)

/-- Result record of `LinkManager.merge_links_files`. -/
structure MergeResult where
  merged : List LinkEntry
  backup : List LinkEntry
  added : Nat
  duplicates : Nat
  updates : Nat
  deriving Repr, DecidableEq

/-- The merge loop of `merge_links_files` (`src/models/link.py:903`): walk
the secondary entries; a URL already in the (pre-merge) primary URL set may
update the first matching primary entry's size, otherwise the entry is
collected for appending.  The URL set is computed once and never extended. -/
def mergeLoop (existingUrls : List String) :
    List LinkEntry → List LinkEntry → List LinkEntry × List LinkEntry × Nat × Nat
  | primary, [] => (primary, [], 0, 0)
  | primary, newLink :: rest =>
    if existingUrls.contains newLink.url then
      let r := mergeLoop existingUrls (mergeUpdateFirst primary newLink).1 rest
      (r.1, r.2.1, r.2.2.1 + 1,
        r.2.2.2 + (if (mergeUpdateFirst primary newLink).2 then 1 else 0))
    else
      let r := mergeLoop existingUrls primary rest
      (r.1, newLink :: r.2.1, r.2.2.1, r.2.2.2)

/-- `LinkManager.merge_links_files` (`src/models/link.py:859`): back up the
primary manifest, merge the secondary into it, and report counts. -/
def merge_links_files (primary secondary : List LinkEntry) : MergeResult :=
  let r := mergeLoop (primary.map (fun l => l.url)) primary secondary
  { merged := r.1 ++ r.2.1
    backup := primary
    added := r.2.1.length
    duplicates := r.2.2.1
    updates := r.2.2.2 }

/-- `DownloaderApp._fix_links_issues` per-entry fix (`src/gui/app.py:1125`):
rebuild the entry with every `LINK_SCHEMA['common']` field defaulted when
absent, plus the `LINK_SCHEMA['iso']` fields when the original entry's
`link_type` upper-cases to `ISO`.  Keys outside the schema are dropped. -/
def fixLink (e : LinkEntry) : LinkEntry :=
  let base : LinkEntry :=
    { url := e.url
      link_type := some (e.link_type.getD "Unknown")
      name := some (e.name.getD "")
      size_bytes := some (e.size_bytes.getD 0)
      enabled := some (e.enabled.getD true)
      processed := some (e.processed.getD false)
      downloaded := some (e.downloaded.getD false)
      extracted := some (e.extracted.getD false)
      deleted := some (e.deleted.getD false)
      copied := some (e.copied.getD false)
      imported := some (e.imported.getD false)
      import_date := some (e.import_date.getD none)
      output_path := some (e.output_path.getD none) }
  if pyUpper (e.link_type.getD "") = "ISO" then
    { base with
      god_converted := some (e.god_converted.getD false)
      god_conversion_date := some (e.god_conversion_date.getD none)
      god_output_path := some (e.god_output_path.getD none)
      god_conversion_error := some (e.god_conversion_error.getD none)
      god_conversion_progress := some (e.god_conversion_progress.getD 0)
      god_conversion_started := some (e.god_conversion_started.getD false)
      god_conversion_completed := some (e.god_conversion_completed.getD false) }
  else base

/-- `DownloaderApp._fix_links_issues` over a manifest: the fixed entry list
together with the `modified` flag (whether any entry changed). -/
def fix_links_issues (links : List LinkEntry) : List LinkEntry × Bool :=
  (links.map fixLink, links.any (fun e => fixLink e ≠ e))

/-- The enablement test both consumers use (`src/models/link.py:197` and
`:331`): `link.get('enabled', True)` — an entry without the key counts as
enabled. -/
def enabledOf (e : LinkEntry) : Bool := e.enabled.getD true

/-- The `Enabled` filter of `process_links` (`src/models/link.py:196`). -/
def filter_enabled (links : List LinkEntry) : List LinkEntry :=
  links.filter enabledOf

/-- Environment outcomes for one entry of `_process_batch`: whether the
download, extraction and copy succeed, whether the GOD-conversion setup
(`os.makedirs` at `src/models/link.py:363` or the `ISO2GODConverter()`
constructor at `:374`, which raises when the executable is missing,
`src/operations/iso2god.py:19`) completes without raising, whether
`_find_matching_iso` finds a file, the path returned by
`convert_iso_to_god` (`none` on failure), and the
`datetime.now().isoformat()` value. -/
structure StepEnv where
  downloadOk : Bool
  extractOk : Bool
  copyOk : Bool
  godSetupOk : Bool
  isoFound : Bool
  godPath : Option String
  nowIso : String

/-- Flags of `_process_batch` that influence the manifest.  `delete_iso`
only removes files from disk and is not modelled. -/
structure BatchCfg where
  convert_god : Bool
  outputDir : String

/-- One iteration of the `for link in batch` loop of
`LinkManager._process_batch` (`src/models/link.py:328`): skip when disabled;
stop early when download, extraction or copy fails (leaving the entry
unchanged); on full success set the four completion flags and `output_path`
(`:354-358`).  When GOD conversion applies, `os.makedirs` (`:363`) or the
`ISO2GODConverter()` constructor (`:374`) may raise AFTER those mutations;
the per-entry handler (`:419`) catches it and `continue`s, skipping the
`json.dump` at `:401` — modelled by the `¬ env.godSetupOk` branch, which
returns the mutated entry unsaved.  The second component records whether
the `json.dump(links_data, ...)` at `:401` ran for this entry. -/
def processOne (cfg : BatchCfg) (env : StepEnv) (e : LinkEntry) : LinkEntry × Bool :=
  if ¬ enabledOf e then (e, false)
  else if ¬ env.downloadOk then (e, false)
  else if ¬ env.extractOk then (e, false)
  else if ¬ env.copyOk then (e, false)
  else
    let gameName := e.name.getD (pyBasename e.url)
    let e1 := { e with
      downloaded := some true
      extracted := some true
      copied := some true
      processed := some true
      output_path := some (some (cfg.outputDir ++ "/" ++ gameName)) }
    if cfg.convert_god ∧ pyLower (e.link_type.getD "") = "iso" then
      if ¬ env.godSetupOk then (e1, false)
      else if env.isoFound then
        match env.godPath with
        | some gp =>
          ({ e1 with
             god_converted := some true
             god_conversion_date := some (some env.nowIso)
             god_output_path := some (some gp) }, true)
        | none => (e1, true)
      else (e1, true)
    else (e1, true)

/-- `LinkManager._process_batch` instrumented with its persistence trace:
entries are processed in order, each mutation happening in place inside the
full manifest (`done ++ current ++ todo`); whenever the source saves
(`json.dump` of the whole `links_data`), the disk snapshot becomes the full
in-memory list.  Each trace element is the pair (in-memory manifest, on-disk
manifest) observed right after one entry finishes. -/
def process_batch_trace (cfg : BatchCfg) :
    List (StepEnv × LinkEntry) → List LinkEntry → List LinkEntry →
    List (List LinkEntry × List LinkEntry)
  | [], _, _ => []
  | (env, e) :: rest, done, disk =>
    let r := processOne cfg env e
    let mem := done ++ r.1 :: rest.map Prod.snd
    let disk' := if r.2 then mem else disk
    (mem, disk') :: process_batch_trace cfg rest (done ++ [r.1]) disk'

/-- Size in megabytes as computed at `src/models/link.py:214`:
`link.get('size_bytes', 0) / (1024 * 1024)` (exact rational division in
place of Python float division). -/
def sizeMB (e : LinkEntry) : ℚ := (e.size_bytes.getD 0 : ℚ) / (1024 * 1024)

/-- Stable descending insertion by size, modelling
`sorted(links_with_size, key=lambda x: x[1], reverse=True)`. -/
def insertBySizeDesc (x : LinkEntry × ℚ) :
    List (LinkEntry × ℚ) → List (LinkEntry × ℚ)
  | [] => [x]
  | y :: ys => if x.2 ≥ y.2 then x :: y :: ys else y :: insertBySizeDesc x ys

/-- Stable descending sort by size (Python `sorted` with `reverse=True`). -/
def sortBySizeDesc : List (LinkEntry × ℚ) → List (LinkEntry × ℚ)
  | [] => []
  | x :: xs => insertBySizeDesc x (sortBySizeDesc xs)

/-- One logged selection of the by-size packer: the sizes still remaining
when the choice was made, the current bin load, the true cumulative size of
everything selected so far, and the chosen size.  (`realCum` is
instrumentation: the sum of previously selected sizes, unlike the source's
`processed_count` counter which the batch-closing code also increments by
the number of links in the batch.) -/
structure SelEvent where
  candidates : List ℚ
  binLoad : ℚ
  realCum : ℚ
  chosen : ℚ
  deriving Repr, DecidableEq

/-- State of the by-size batching loop of `process_links`
(`src/models/link.py:224`). -/
structure PackState where
  remaining : List (LinkEntry × ℚ)
  processedCount : ℚ
  realCum : ℚ
  batch : List LinkEntry
  batchLoad : ℚ
  bins : List (List LinkEntry)
  events : List SelEvent
  deriving Repr, DecidableEq

/-- The best-fit scan (`src/models/link.py:234`): walk the remaining links,
skip any that would push `processed_count` past the total limit, and keep
the largest one that fits the current bin under the hard-coded 10240 MB
capacity (strictly larger than the best so far, which starts at 0). -/
def bestFit (processed batchLoad total : ℚ) :
    List (LinkEntry × ℚ) → Nat → Option (Nat × LinkEntry × ℚ) →
    Option (Nat × LinkEntry × ℚ)
  | [], _, best => best
  | (l, s) :: rest, i, best =>
    if processed + s > total then bestFit processed batchLoad total rest (i + 1) best
    else if batchLoad + s ≤ 10240 ∧ s > (match best with
        | some b => b.2.2
        | none => 0) then
      bestFit processed batchLoad total rest (i + 1) (some (i, l, s))
    else bestFit processed batchLoad total rest (i + 1) best

/-- Minimum of a list of sizes (only used on non-empty lists, as the source
guards `min(...)` with `remaining_links and ...`). -/
def minQ : List ℚ → ℚ
  | [] => 0
  | x :: xs => xs.foldl min x

/-- The batch-closing test evaluated right after a link is added
(`src/models/link.py:254`): 90 % of the 10240 MB bin, exhausted input,
smallest remaining link no longer fitting, or total limit reached. -/
def closeCond (batchLoad processed total : ℚ)
    (remaining : List (LinkEntry × ℚ)) : Bool :=
  decide (batchLoad ≥ 10240 * (9 / 10)) || remaining.isEmpty ||
    (!remaining.isEmpty && decide (batchLoad + minQ (remaining.map Prod.snd) > 10240)) ||
    decide (processed ≥ total)

/-- Closing a batch in the best-fit branch (`src/models/link.py:259`): the
batch is handed to `_process_batch`, `processed_count` is incremented by the
NUMBER of links in the batch (the source adds a link count to a megabyte
counter), and the batch is reset. -/
def closeBatch (st : PackState) : PackState :=
  { st with
    bins := st.bins ++ [st.batch]
    processedCount := st.processedCount + st.batch.length
    batch := []
    batchLoad := 0 }

/-- The forced-start scan of the no-fit branch (`src/models/link.py:278`):
pop links from the front (largest first) until one keeps `processed_count`
within the total limit; links that do not are discarded.  Returns the new
remaining list, the started link (if any) and the updated counter. -/
def forceStart (total : ℚ) :
    List (LinkEntry × ℚ) → ℚ → List (LinkEntry × ℚ) × Option (LinkEntry × ℚ) × ℚ
  | [], processed => ([], none, processed)
  | (l, s) :: rest, processed =>
    if processed + s ≤ total then (rest, some (l, s), processed + s)
    else forceStart total rest processed

/-- The `while remaining_links and processed_count < total_size_mb` loop of
by-size batching (`src/models/link.py:227`), fuel-recursive (every iteration
removes at least one remaining link).  In the no-fit branch the source
processes the current batch without clearing `current_batch_links`, which is
modelled faithfully: the stale batch is only overwritten when the forced
start finds a link. -/
def packLoop (total : ℚ) : Nat → PackState → PackState
  | 0, st => st
  | fuel + 1, st =>
    if st.remaining.isEmpty || !decide (st.processedCount < total) then st
    else
      match bestFit st.processedCount st.batchLoad total st.remaining 0 none with
      | some (i, l, s) =>
        let ev : SelEvent :=
          { candidates := st.remaining.map Prod.snd
            binLoad := st.batchLoad
            realCum := st.realCum
            chosen := s }
        let st' := { st with
          remaining := st.remaining.eraseIdx i
          batch := st.batch ++ [l]
          batchLoad := st.batchLoad + s
          processedCount := st.processedCount + s
          realCum := st.realCum + s
          events := st.events ++ [ev] }
        let st'' :=
          if closeCond st'.batchLoad st'.processedCount total st'.remaining then
            closeBatch st'
          else st'
        packLoop total fuel st''
      | none =>
        let st' :=
          if st.batch.isEmpty then st
          else { st with
            bins := st.bins ++ [st.batch]
            processedCount := st.processedCount + st.batch.length }
        let fs := forceStart total st'.remaining st'.processedCount
        let st'' :=
          match fs.2.1 with
          | some ls =>
            { st' with
              remaining := fs.1
              batch := [ls.1]
              batchLoad := ls.2
              processedCount := fs.2.2
              realCum := st'.realCum + ls.2
              events := st'.events ++
                [{ candidates := st'.remaining.map Prod.snd
                   binLoad := 0
                   realCum := st'.realCum
                   chosen := ls.2 }] }
          | none => { st' with remaining := fs.1, processedCount := fs.2.2 }
        packLoop total fuel st''

/-- The by-size branch of `LinkManager.process_links`
(`src/models/link.py:212`): sort by size descending, cap the total work at
`min(sum, batch_size)`, run the packing loop, and process any final
non-empty batch. -/
def process_links_by_size (links : List LinkEntry) (batch_size : ℚ) : PackState :=
  let linksWithSize := links.map (fun l => (l, sizeMB l))
  let remaining := sortBySizeDesc linksWithSize
  let total := min ((linksWithSize.map Prod.snd).foldl (· + ·) 0) batch_size
  let st0 : PackState :=
    { remaining := remaining, processedCount := 0, realCum := 0,
      batch := [], batchLoad := 0, bins := [], events := [] }
  let st := packLoop total (remaining.length + 1) st0
  if st.batch.isEmpty then st else { st with bins := st.bins ++ [st.batch] }

/-- Filesystem/network outcomes for one `_download_file` call: whether the
HTTP request succeeds, whether the written file exists, its size, and
whether `zipfile.ZipFile(...).testzip()` accepts it. -/
structure DlEnv where
  requestOk : Bool
  fileExists : Bool
  fileSize : Nat
  validZip : Bool
  deriving Repr, DecidableEq

/-- `LinkManager._validate_download` (`src/models/link.py:425`): filename
must match the URL basename, the file must exist and be non-empty, and
`_is_valid_zip` must accept it — the zip check runs for every file,
whatever its extension. -/
def validate_download (filePath expectedUrl : String) (env : DlEnv) : Bool :=
  if pyBasename expectedUrl ≠ pyBasename filePath then false
  else if ¬ env.fileExists then false
  else if env.fileSize = 0 then false
  else if ¬ env.validZip then false
  else true

/-- `LinkManager._download_file` (`src/models/link.py:487`): on request
failure no file result; otherwise write `temp_dir/basename(url)`, validate,
and on validation failure return no result while keeping the file on disk.
The second component records whether the downloaded file is still on disk
when the call returns. -/
def download_file (url tempDir : String) (env : DlEnv) : Option String × Bool :=
  if ¬ env.requestOk then (none, false)
  else
    let filePath := tempDir ++ "/" ++ pyBasename url
    if validate_download filePath url env then (some filePath, true)
    else (none, true)

/-- Modelled from the spec: §4.4's archive handlers (`.zip`, `.tar`,
`.tar.gz`, `.tgz`) determine when §4.3's expected extension "implies an
archive". -/
def archiveExtension (url : String) : Bool :=
  pyEndswith url ".zip" || pyEndswith url ".tar" || pyEndswith url ".tar.gz" ||
    pyEndswith url ".tgz"

/-- Modelled from the spec: §4.3's validation contract — filename match,
non-empty file, and a structural integrity check only when the expected
extension implies an archive. -/
def spec_validate_download (filePath expectedUrl : String) (env : DlEnv) : Bool :=
  (pyBasename expectedUrl = pyBasename filePath : Bool) && env.fileExists &&
    (env.fileSize != 0) && (!archiveExtension expectedUrl || env.validZip)

/-- One iteration of the converter read loop
(`src/operations/iso2god.py:111`): the line read from stdout and from
stderr (if any), the `process.poll()` result, and the wall-clock time of
the iteration. -/
structure LoopIter where
  out : Option String
  err : Option String
  poll : Option Int
  t : ℚ
  deriving Repr, DecidableEq

/-- How the converter read loop ends: killed as frozen, normal exit with a
return code, or the modelled iteration trace ran out. -/
inductive LoopExit where
  | frozen : LoopExit
  | exited : Int → LoopExit
  | ranOut : LoopExit
  deriving Repr, DecidableEq

/-- The `while True` read loop of `convert_iso_to_god`
(`src/operations/iso2god.py:111`): any stdout/stderr line refreshes
`last_activity`; a poll result breaks out of the loop; more than 300
seconds without activity kills the process. -/
def convertLoop : List LoopIter → ℚ → LoopExit
  | [], _ => .ranOut
  | it :: rest, lastActivity =>
    let la1 := if it.out.isSome then it.t else lastActivity
    let la2 := if it.err.isSome then it.t else la1
    match it.poll with
    | some rc => .exited rc
    | none => if it.t - la2 > 300 then .frozen else convertLoop rest la2

/-- Outcome of `ISO2GODConverter.convert_iso_to_god`; every constructor
except `success` makes the source return `None` after putting the matching
status event (missing ISO, frozen-process kill, nonzero exit code, exit 0
without any `.000` file). -/
inductive ConvertOutcome where
  | isoMissing : ConvertOutcome
  | frozenKilled : ConvertOutcome
  | nonzeroExit : Int → ConvertOutcome
  | noGodFiles : ConvertOutcome
  | success : String → ConvertOutcome
  | traceExhausted : ConvertOutcome
  deriving Repr, DecidableEq

/-- `ISO2GODConverter.convert_iso_to_god` (`src/operations/iso2god.py:63`):
check the ISO exists, run the subprocess read loop (from process start,
`last_activity = time.time()`), require return code 0, then scan the output
directory for a file ending in `.000` — its presence, not the exit code
alone, is the success signal. -/
def convert_iso_to_god (isoExists : Bool) (startTime : ℚ)
    (iters : List LoopIter) (outputFiles : List String) : ConvertOutcome :=
  if ¬ isoExists then .isoMissing
  else
    match convertLoop iters startTime with
    | .frozen => .frozenKilled
    | .ranOut => .traceExhausted
    | .exited rc =>
      if rc ≠ 0 then .nonzeroExit rc
      else
        match outputFiles.filter (fun f => pyEndswith f ".000") with
        | [] => .noGodFiles
        | g :: _ => .success g

/-- The value `convert_iso_to_god` returns to its caller: the joined path of
the first `.000` file on success, `None` otherwise. -/
def convert_result (outputDir : String) : ConvertOutcome → Option String
  | .success g => some (outputDir ++ "/" ++ g)
  | _ => none

/-- Character class the sanitised name may use: alphanumeric, space or
hyphen. -/
def allowedChar (c : Char) : Prop := c.isAlphanum = true ∨ c = ' ' ∨ c = '-'

/-- The size update a duplicate URL receives during a merge, stated as a
per-entry function: an entry of the primary keeps its `size_bytes` unless it
is zero or missing, in which case the first secondary entry with the same
URL and a nonzero size donates its value. -/
def mergeUpd (B : List LinkEntry) (a : LinkEntry) : LinkEntry :=
  if a.size_bytes.getD 0 ≠ 0 then a
  else
    match B.find? (fun b => b.url = a.url ∧ b.size_bytes.getD 0 ≠ 0) with
    | some b => { a with size_bytes := b.size_bytes }
    | none => a

/-- An entry with a given URL and size in whole megabytes (`size_bytes`
in bytes, as the manifest stores them). -/
def c4e (u : String) (mb : Nat) : LinkEntry :=
  { url := u, size_bytes := some (mb * 1024 * 1024) }

/-- The four entries of the by-size packing scenario: sizes 9000, 6000,
5000 and 1000 MB. -/
def c4entries : List LinkEntry :=
  [c4e "a" 9000, c4e "b" 6000, c4e "c" 5000, c4e "d" 1000]

/-- A selection event picks the largest remaining entry that fits the
current bin (capacity `capBin`) and keeps the running cumulative size under
the overall cap `capTotal`. -/
def selectsLargestFit (capBin capTotal : ℚ) (ev : SelEvent) : Prop :=
  ev.chosen ∈ ev.candidates ∧ ev.binLoad + ev.chosen ≤ capBin ∧
    ev.realCum + ev.chosen < capTotal ∧
    ∀ s ∈ ev.candidates, ev.binLoad + s ≤ capBin → ev.realCum + s < capTotal →
      s ≤ ev.chosen

theorem char_ofNat_toNat {n : Nat} (h : n < 55296) : (Char.ofNat n).toNat = n := by
  unfold Char.ofNat
  rw [dif_pos (Or.inl h)]
  rfl

theorem isAlphanum_iff_toNat (c : Char) : c.isAlphanum = true ↔
    (65 ≤ c.toNat ∧ c.toNat ≤ 90) ∨ (97 ≤ c.toNat ∧ c.toNat ≤ 122) ∨
      (48 ≤ c.toNat ∧ c.toNat ≤ 57) := by
  simp [Char.isAlphanum, Char.isAlpha, Char.isUpper, Char.isLower, Char.isDigit, Char.toNat]
  tauto

theorem allowedChar_toUpper {c : Char} (h : allowedChar c) : allowedChar c.toUpper := by
  rcases h with h | h | h
  · by_cases hr : c.toNat ≥ 97 ∧ c.toNat ≤ 122
    · have hu : c.toUpper = Char.ofNat (c.toNat - 32) := by
        simp [Char.toUpper, hr]
      have hv : (Char.ofNat (c.toNat - 32)).toNat = c.toNat - 32 :=
        char_ofNat_toNat (by omega)
      left
      rw [hu, isAlphanum_iff_toNat, hv]
      omega
    · have hu : c.toUpper = c := by
        simp [Char.toUpper]
        intro h1 h2
        exact absurd ⟨h1, h2⟩ hr
      rw [hu]; left; exact h
  · subst h; right; left; decide
  · subst h; right; right; decide

theorem allowedChar_toLower {c : Char} (h : allowedChar c) : allowedChar c.toLower := by
  rcases h with h | h | h
  · by_cases hr : c.toNat ≥ 65 ∧ c.toNat ≤ 90
    · have hu : c.toLower = Char.ofNat (c.toNat + 32) := by
        simp [Char.toLower, hr]
      have hv : (Char.ofNat (c.toNat + 32)).toNat = c.toNat + 32 :=
        char_ofNat_toNat (by omega)
      left
      rw [hu, isAlphanum_iff_toNat, hv]
      omega
    · have hu : c.toLower = c := by
        simp [Char.toLower]
        intro h1 h2
        exact absurd ⟨h1, h2⟩ hr
      rw [hu]; left; exact h
  · subst h; right; left; decide
  · subst h; right; right; decide

theorem mem_pyWordsAux {c : Char} :
    ∀ {cs acc : List Char} {w : List Char}, w ∈ pyWordsAux cs acc → c ∈ w →
      c ∈ cs ∨ c ∈ acc := by
  intro cs
  induction cs with
  | nil =>
    intro acc w hw hc
    unfold pyWordsAux at hw
    split at hw
    · simp at hw
    · simp at hw
      subst hw
      right
      simpa using hc
  | cons c0 rest ih =>
    intro acc w hw hc
    unfold pyWordsAux at hw
    split at hw
    · split at hw
      · rcases ih hw hc with h | h
        · exact Or.inl (List.mem_cons_of_mem _ h)
        · simp at h
      · rcases List.mem_cons.mp hw with h | h
        · subst h
          right
          simpa using hc
        · rcases ih h hc with h2 | h2
          · exact Or.inl (List.mem_cons_of_mem _ h2)
          · simp at h2
    · rcases ih hw hc with h | h
      · exact Or.inl (List.mem_cons_of_mem _ h)
      · rcases List.mem_cons.mp h with h2 | h2
        · exact Or.inl (h2 ▸ List.mem_cons_self _ _)
        · exact Or.inr h2

theorem mem_pyWords {c : Char} {cs : List Char} {w : List Char}
    (hw : w ∈ pyWords cs) (hc : c ∈ w) : c ∈ cs := by
  rcases mem_pyWordsAux hw hc with h | h
  · exact h
  · simp at h

theorem mem_intercalate_space {c : Char} :
    ∀ {ws : List (List Char)}, c ∈ List.intercalate [' '] ws →
      (∃ w ∈ ws, c ∈ w) ∨ c = ' ' := by
  intro ws
  induction ws with
  | nil => intro h; simp [List.intercalate] at h
  | cons w rest ih =>
    intro h
    cases rest with
    | nil =>
      simp [List.intercalate] at h
      exact Or.inl ⟨w, by simp, h⟩
    | cons w2 rest2 =>
      rw [List.intercalate, List.intersperse_cons_cons, List.flatten_cons,
        List.flatten_cons] at h
      rcases List.mem_append.mp h with h | h
      · exact Or.inl ⟨w, by simp, h⟩
      · rcases List.mem_append.mp h with h2 | h2
        · simp at h2
          exact Or.inr h2
        · have : c ∈ List.intercalate [' '] (w2 :: rest2) := by
            rw [List.intercalate]
            exact h2
          rcases ih this with ⟨w3, hw3, hc3⟩ | h3
          · exact Or.inl ⟨w3, List.mem_cons_of_mem _ hw3, hc3⟩
          · exact Or.inr h3

theorem mem_pyCapitalize {c : Char} {w : List Char} (h : c ∈ pyCapitalize w) :
    ∃ d ∈ w, c = d.toUpper ∨ c = d.toLower := by
  cases w with
  | nil => simp [pyCapitalize] at h
  | cons d rest =>
    rw [pyCapitalize] at h
    rcases List.mem_cons.mp h with h2 | h2
    · exact ⟨d, List.mem_cons_self _ _, Or.inl h2⟩
    · rcases List.mem_map.mp h2 with ⟨d2, hd2, he⟩
      exact ⟨d2, List.mem_cons_of_mem _ hd2, Or.inr he.symm⟩

theorem mem_pyRstrip {c : Char} {l : List Char} (h : c ∈ pyRstrip l) : c ∈ l := by
  unfold pyRstrip at h
  rw [List.mem_reverse] at h
  have := (List.dropWhile_sublist _).subset h
  rwa [List.mem_reverse] at this

theorem allowed_of_mem_filter {l : List Char} {c : Char}
    (h : c ∈ l.filter (fun c => c.isAlphanum ∨ c = ' ' ∨ c = '-')) : allowedChar c := by
  have := (List.mem_filter.mp h).2
  simpa [allowedChar] using this

theorem allowed_join_words {l : List Char} (hl : ∀ c ∈ l, allowedChar c) :
    ∀ c ∈ List.intercalate [' '] (pyWords l), allowedChar c := by
  intro c hc
  rcases mem_intercalate_space hc with ⟨w, hw, hcw⟩ | h
  · exact hl c (mem_pyWords hw hcw)
  · subst h
    exact Or.inr (Or.inl rfl)

theorem allowed_words_caps {l : List Char} (hl : ∀ c ∈ l, allowedChar c) :
    ∀ c ∈ List.intercalate [' '] ((pyWords l).map pyCapitalize), allowedChar c := by
  intro c hc
  rcases mem_intercalate_space hc with ⟨w2, hw2, hcw⟩ | h
  · rcases List.mem_map.mp hw2 with ⟨w1, hw1, rfl⟩
    rcases mem_pyCapitalize hcw with ⟨d, hd, hcd⟩
    have had := hl d (mem_pyWords hw1 hd)
    rcases hcd with rfl | rfl
    · exact allowedChar_toUpper had
    · exact allowedChar_toLower had
  · subst h
    exact Or.inr (Or.inl rfl)

theorem pyRstrip_take_length (l : List Char) (n : Nat) :
    (pyRstrip (l.take n)).length ≤ n := by
  unfold pyRstrip
  rw [List.length_reverse]
  calc ((l.take n).reverse.dropWhile Char.isWhitespace).length
      ≤ (l.take n).reverse.length := (List.dropWhile_sublist _).length_le
    _ = (l.take n).length := List.length_reverse _
    _ ≤ n := List.length_take_le _ _

theorem sanitize_allowed (url : String) :
    ∀ c ∈ (sanitize_game_name url).toList, allowedChar c := by
  intro c hc
  simp only [sanitize_game_name, String.toList] at hc
  split at hc
  · exact allowed_words_caps (allowed_join_words (fun d hd => allowed_of_mem_filter hd))
      c (List.take_subset _ _ (mem_pyRstrip hc))
  · exact allowed_words_caps (allowed_join_words (fun d hd => allowed_of_mem_filter hd)) c hc

theorem sanitize_length (url : String) : (sanitize_game_name url).length ≤ 200 := by
  simp only [sanitize_game_name, String.length]
  split
  · exact pyRstrip_take_length _ _
  · omega

/-- C8: the sanitizer is a pure function of the URL; on the pinned example it
yields "My Game Title Usa"; every output is at most 200 characters and uses
only alphanumerics, spaces and hyphens. -/
theorem c8_sanitize :
    sanitize_game_name "http://x/My_Game-Title%20(USA).zip" = "My Game Title Usa" ∧
    (∀ url : String, (sanitize_game_name url).length ≤ 200) ∧
    (∀ url : String, ∀ c ∈ (sanitize_game_name url).toList, allowedChar c) :=
  ⟨by decide, sanitize_length, sanitize_allowed⟩

theorem fixLink_fixLink (e : LinkEntry) : fixLink (fixLink e) = fixLink e := by
  cases hlt : e.link_type with
  | none =>
    have h1 : (pyUpper "" = "ISO") = False := by decide
    have h2 : (pyUpper "Unknown" = "ISO") = False := by decide
    simp [fixLink, hlt, h1, h2]
  | some t =>
    by_cases h : pyUpper t = "ISO" <;>
      simp [fixLink, hlt, h]

/-- C9: the fix-up routine is idempotent — applied to its own output it
returns that output unchanged and reports that no entry changed. -/
theorem c9_fix_idempotent (links : List LinkEntry) :
    (fix_links_issues (fix_links_issues links).1).1 = (fix_links_issues links).1 ∧
    (fix_links_issues (fix_links_issues links).1).2 = false := by
  constructor
  · simp [fix_links_issues, List.map_map, Function.comp, fixLink_fixLink]
  · simp only [fix_links_issues, List.any_eq_false, List.mem_map]
    rintro e ⟨e0, _, rfl⟩
    simp [fixLink_fixLink]

/-- C10: an entry created by `process_urls_file` has no `enabled` and no
`name` key (exactly `url`, `link_type`, `size_bytes` and the four pipeline
flags are present), and both consumers of enablement — the `Enabled` filter
and the per-entry skip in the batch loop — treat it as enabled, so it is
selected and processed (with every stage outcome succeeding and the
GOD-conversion setup not raising, the step runs through to the save rather
than taking the disabled skip). -/
theorem c10_missing_key_enabled (u lt : String) (cfg : BatchCfg) (env : StepEnv)
    (h1 : env.downloadOk = true) (h2 : env.extractOk = true)
    (h3 : env.copyOk = true) (h4 : env.godSetupOk = true) :
    (mkUrlLink u lt).enabled = none ∧ (mkUrlLink u lt).name = none ∧
    (mkUrlLink u lt).url = pyStrip u ∧ (mkUrlLink u lt).link_type = some lt ∧
    (mkUrlLink u lt).size_bytes = some 0 ∧
    (mkUrlLink u lt).downloaded = some false ∧
    (mkUrlLink u lt).extracted = some false ∧
    (mkUrlLink u lt).deleted = some false ∧
    (mkUrlLink u lt).copied = some false ∧
    (mkUrlLink u lt).processed = none ∧ (mkUrlLink u lt).imported = none ∧
    (mkUrlLink u lt).import_date = none ∧ (mkUrlLink u lt).output_path = none ∧
    (mkUrlLink u lt).god_converted = none ∧
    (mkUrlLink u lt).god_conversion_date = none ∧
    (mkUrlLink u lt).god_output_path = none ∧
    (mkUrlLink u lt).god_conversion_error = none ∧
    (mkUrlLink u lt).god_conversion_progress = none ∧
    (mkUrlLink u lt).god_conversion_started = none ∧
    (mkUrlLink u lt).god_conversion_completed = none ∧
    enabledOf (mkUrlLink u lt) = true ∧
    filter_enabled [mkUrlLink u lt] = [mkUrlLink u lt] ∧
    (processOne cfg env (mkUrlLink u lt)).2 = true := by
  refine ⟨rfl, rfl, rfl, rfl, rfl, rfl, rfl, rfl, rfl, rfl, rfl, rfl, rfl, rfl,
    rfl, rfl, rfl, rfl, rfl, rfl, rfl, ?_, ?_⟩
  · simp [filter_enabled, enabledOf, mkUrlLink]
  · by_cases h5 : cfg.convert_god = true ∧ pyLower lt = "iso" <;>
      by_cases h7 : env.isoFound <;> cases hgp : env.godPath <;>
        simp [processOne, enabledOf, mkUrlLink, h1, h2, h3, h4, h5, h7, hgp]

/-- C10 witness: a concrete URL-list entry with an all-success environment is
keyless on `enabled`/`name`, passes the `Enabled` filter and is processed. -/
theorem c10_witness :
    (⟨true, true, true, true, false, none, "2024-01-01"⟩ : StepEnv).downloadOk = true ∧
    (mkUrlLink "http://x/a.zip" "ISO").enabled = none ∧
    (mkUrlLink "http://x/a.zip" "ISO").name = none ∧
    enabledOf (mkUrlLink "http://x/a.zip" "ISO") = true ∧
    filter_enabled [mkUrlLink "http://x/a.zip" "ISO"] = [mkUrlLink "http://x/a.zip" "ISO"] ∧
    (processOne ⟨false, "out"⟩ ⟨true, true, true, true, false, none, "2024-01-01"⟩
      (mkUrlLink "http://x/a.zip" "ISO")).2 = true := by
  have h := c10_missing_key_enabled "http://x/a.zip" "ISO" ⟨false, "out"⟩
    ⟨true, true, true, true, false, none, "2024-01-01"⟩ rfl rfl rfl rfl
  exact ⟨rfl, h.1, h.2.1, h.2.2.2.2.2.2.2.2.2.2.2.2.2.2.2.2.2.2.2.2.1,
    h.2.2.2.2.2.2.2.2.2.2.2.2.2.2.2.2.2.2.2.2.2.1,
    h.2.2.2.2.2.2.2.2.2.2.2.2.2.2.2.2.2.2.2.2.2.2⟩

/-- C1 counterexample: a single append call whose input list repeats a URL
produces a manifest with two entries carrying the same `url`. -/
theorem c1_counterexample :
    (process_urls_seq [] [(["http://x/a.zip", "http://x/a.zip"], "ISO")]).map
        LinkEntry.url = ["http://x/a.zip", "http://x/a.zip"] ∧
    ¬ ((process_urls_seq [] [(["http://x/a.zip", "http://x/a.zip"], "ISO")]).map
        LinkEntry.url).Nodup := by
  constructor
  · decide
  · decide

theorem process_urls_append_nodup {existing : List LinkEntry}
    {urls : List String} (lt : String)
    (h0 : (existing.map LinkEntry.url).Nodup)
    (h1 : (urls.map pyStrip).Nodup) :
    ((process_urls_file_append existing urls lt).map LinkEntry.url).Nodup := by
  unfold process_urls_file_append
  rw [List.map_append]
  refine List.Nodup.append h0 ?_ ?_
  · have hsub : List.Sublist
        (((urls.map (fun u => mkUrlLink u lt)).filter
          (fun l => ¬ (existing.map (fun l => l.url)).contains l.url)).map LinkEntry.url)
        ((urls.map (fun u => mkUrlLink u lt)).map LinkEntry.url) :=
      (List.filter_sublist _).map _
    have heq : (urls.map (fun u => mkUrlLink u lt)).map LinkEntry.url
        = urls.map pyStrip := by
      rw [List.map_map]
      rfl
    exact (heq ▸ hsub).nodup h1
  · intro a ha hb
    rcases List.mem_map.mp hb with ⟨l, hl, rfl⟩
    have hpred := (List.mem_filter.mp hl).2
    simp only [decide_not, Bool.not_eq_true', decide_eq_false_iff_not] at hpred
    exact hpred (List.elem_eq_true_of_mem (by simpa using ha))

/-- C1 amended: provided each call's input URLs are pairwise distinct after
stripping, any sequence of append-mode calls starting from a manifest with
unique URLs keeps every `url` unique. -/
theorem c1_append_unique_amended (init : List LinkEntry)
    (calls : List (List String × String))
    (h0 : (init.map LinkEntry.url).Nodup)
    (h1 : ∀ c ∈ calls, (c.1.map pyStrip).Nodup) :
    ((process_urls_seq init calls).map LinkEntry.url).Nodup := by
  induction calls generalizing init with
  | nil => exact h0
  | cons c rest ih =>
    rw [process_urls_seq, List.foldl_cons]
    exact ih _ (process_urls_append_nodup c.2 h0 (h1 c (List.mem_cons_self _ _)))
      (fun d hd => h1 d (List.mem_cons_of_mem _ hd))

/-- C1 witness: two append calls with distinct stripped URLs per call keep
the manifest URLs unique. -/
theorem c1_witness :
    (([] : List LinkEntry).map LinkEntry.url).Nodup ∧
    (∀ c ∈ [(["http://x/a.zip", "http://x/b.zip"], "ISO"),
            (["http://x/a.zip", "http://x/c.zip"], "XBLA")],
       ((c.1.map pyStrip).Nodup : Prop)) ∧
    ((process_urls_seq [] [(["http://x/a.zip", "http://x/b.zip"], "ISO"),
        (["http://x/a.zip", "http://x/c.zip"], "XBLA")]).map LinkEntry.url).Nodup :=
  ⟨by decide, by decide,
    c1_append_unique_amended [] _ (by decide) (by decide)⟩

theorem mergeUpdateFirst_url_map (b : LinkEntry) :
    ∀ A : List LinkEntry, ((mergeUpdateFirst A b).1).map LinkEntry.url
      = A.map LinkEntry.url := by
  intro A
  induction A with
  | nil => rfl
  | cons a A0 ih =>
    rw [mergeUpdateFirst]
    split
    · split <;> simp
    · simp [ih]

theorem mergeUpd_cons_skip {b a : LinkEntry} (rest : List LinkEntry)
    (h : b.url ≠ a.url ∨ b.size_bytes.getD 0 = 0) :
    mergeUpd (b :: rest) a = mergeUpd rest a := by
  unfold mergeUpd
  split
  · rfl
  · have hfind : List.find? (fun x => x.url = a.url ∧ x.size_bytes.getD 0 ≠ 0)
        (b :: rest) = List.find? (fun x => x.url = a.url ∧ x.size_bytes.getD 0 ≠ 0) rest := by
      rw [List.find?_cons_of_neg]
      simp only [decide_eq_true_eq, not_and, Bool.not_eq_true, decide_eq_false_iff_not]
      rcases h with h | h
      · intro hu
        exact absurd hu h
      · intro _
        simp [h]
    rw [hfind]

theorem mergeUpdateFirst_commutes (b : LinkEntry) (rest : List LinkEntry) :
    ∀ A : List LinkEntry, (A.map LinkEntry.url).Nodup →
      ((mergeUpdateFirst A b).1).map (mergeUpd rest) = A.map (mergeUpd (b :: rest)) := by
  intro A
  induction A with
  | nil => intro _; rfl
  | cons a A0 ih =>
    intro hnd
    rw [List.map_cons] at hnd
    have ha : a.url ∉ A0.map LinkEntry.url := (List.nodup_cons.mp hnd).1
    have hnd0 : (A0.map LinkEntry.url).Nodup := (List.nodup_cons.mp hnd).2
    rw [mergeUpdateFirst]
    split
    · next hurl =>
      have htail : List.map (mergeUpd rest) A0 = List.map (mergeUpd (b :: rest)) A0 := by
        apply List.map_congr_left
        intro a0 ha0
        refine (mergeUpd_cons_skip rest (Or.inl ?_)).symm
        intro hb
        exact ha (by rw [hurl, hb]; exact List.mem_map_of_mem LinkEntry.url ha0)
      split
      · next hcond =>
        have h1 : mergeUpd rest { a with size_bytes := b.size_bytes }
            = { a with size_bytes := b.size_bytes } := by
          unfold mergeUpd
          rw [if_pos hcond.2]
        have h2 : mergeUpd (b :: rest) a = { a with size_bytes := b.size_bytes } := by
          unfold mergeUpd
          rw [if_neg (by simp [hcond.1])]
          rw [List.find?_cons_of_pos _ (by simp only [decide_eq_true_eq]; exact ⟨hurl.symm, hcond.2⟩)]
        simp only [List.map_cons, h1, h2, htail]
      · next hcond =>
        have hhead : mergeUpd rest a = mergeUpd (b :: rest) a := by
          by_cases hz : a.size_bytes.getD 0 = 0
          · have hb0 : b.size_bytes.getD 0 = 0 := by
              by_contra hb0
              exact hcond ⟨hz, hb0⟩
            exact (mergeUpd_cons_skip rest (Or.inr hb0)).symm
          · unfold mergeUpd
            rw [if_pos hz, if_pos hz]
        simp only [List.map_cons, hhead, htail]
    · next hurl =>
      have hhead : mergeUpd rest a = mergeUpd (b :: rest) a :=
        (mergeUpd_cons_skip rest (Or.inl (fun hb => hurl hb.symm))).symm
      simp only [List.map_cons, hhead]
      rw [ih hnd0]

theorem mergeUpd_nil (a : LinkEntry) : mergeUpd [] a = a := by
  unfold mergeUpd
  split <;> rfl

theorem mergeLoop_char (urlsA : List String) (B : List LinkEntry) :
    ∀ A : List LinkEntry, A.map LinkEntry.url = urlsA →
      (A.map LinkEntry.url).Nodup →
      (mergeLoop urlsA A B).1 = A.map (mergeUpd B) ∧
      (mergeLoop urlsA A B).2.1 = B.filter (fun b => ¬ urlsA.contains b.url) := by
  induction B with
  | nil =>
    intro A _ _
    constructor
    · rw [mergeLoop]
      show A = List.map (mergeUpd []) A
      rw [show List.map (mergeUpd []) A = List.map id A from
        List.map_congr_left (fun a _ => mergeUpd_nil a), List.map_id]
    · rw [mergeLoop]
      rfl
  | cons b rest ih =>
    intro A hurls hnd
    rw [mergeLoop]
    by_cases hc : urlsA.contains b.url
    · rw [if_pos hc]
      have hu' : ((mergeUpdateFirst A b).1).map LinkEntry.url = urlsA := by
        rw [mergeUpdateFirst_url_map]; exact hurls
      have hnd' : (((mergeUpdateFirst A b).1).map LinkEntry.url).Nodup := by
        rw [mergeUpdateFirst_url_map]; exact hnd
      have hih := ih (mergeUpdateFirst A b).1 hu' hnd'
      constructor
      · show (mergeLoop urlsA (mergeUpdateFirst A b).1 rest).1 = _
        rw [hih.1, mergeUpdateFirst_commutes b rest A hnd]
      · show (mergeLoop urlsA (mergeUpdateFirst A b).1 rest).2.1 = _
        rw [hih.2]
        have : (List.filter (fun b => decide (¬ urlsA.contains b.url = true)) (b :: rest))
            = List.filter (fun b => decide (¬ urlsA.contains b.url = true)) rest := by
          rw [List.filter_cons_of_neg]
          simp only [decide_not, Bool.not_eq_true', decide_eq_false_iff_not,
            Decidable.not_not]
          exact hc
        rw [this]
    · rw [if_neg hc]
      have hih := ih A hurls hnd
      constructor
      · show (mergeLoop urlsA A rest).1 = _
        rw [hih.1]
        apply List.map_congr_left
        intro a0 ha0
        refine (mergeUpd_cons_skip rest (Or.inl ?_)).symm
        intro hb
        apply hc
        rw [← hurls]
        apply List.elem_eq_true_of_mem
        rw [hb]
        exact List.mem_map_of_mem LinkEntry.url ha0
      · show b :: (mergeLoop urlsA A rest).2.1 = _
        rw [hih.2]
        rw [List.filter_cons_of_pos]
        simp only [decide_not, Bool.not_eq_true', decide_eq_false_iff_not]
        exact Bool.not_eq_true _ ▸ hc

/-- C2 counterexample: merging a secondary entry whose `size_bytes` (10) is
larger than the primary's nonzero value (5) leaves the primary entry at 5 —
the source only copies sizes into zero/missing slots. -/
theorem c2_counterexample :
    (merge_links_files [{ url := "u", size_bytes := some 5 }]
        [{ url := "u", size_bytes := some 10 }]).merged.map LinkEntry.size_bytes
      = [some 5] ∧ (5 : Nat) < 10 := by
  constructor
  · decide
  · decide

/-- C2 amended: merging writes a backup equal to the pre-merge primary;
each primary entry keeps its `size_bytes` unless it was zero or missing, in
which case the first secondary entry with the same URL and a nonzero size
donates its value (`mergeUpd`); secondary entries with unseen URLs are
appended, so the merged length is the primary length plus the number of
secondary entries whose URL is not in the primary. -/
theorem c2_merge_amended (A B : List LinkEntry)
    (h : (A.map LinkEntry.url).Nodup) :
    (merge_links_files A B).backup = A ∧
    (merge_links_files A B).merged
      = A.map (mergeUpd B)
        ++ B.filter (fun b => ¬ (A.map LinkEntry.url).contains b.url) ∧
    (merge_links_files A B).merged.length
      = A.length
        + (B.filter (fun b => ¬ (A.map LinkEntry.url).contains b.url)).length := by
  have hchar := mergeLoop_char (A.map LinkEntry.url) B A rfl h
  refine ⟨rfl, ?_, ?_⟩
  · show (mergeLoop (A.map (fun l => l.url)) A B).1
        ++ (mergeLoop (A.map (fun l => l.url)) A B).2.1 = _
    rw [show (A.map (fun l => l.url)) = A.map LinkEntry.url from rfl, hchar.1, hchar.2]
  · show ((mergeLoop (A.map (fun l => l.url)) A B).1
        ++ (mergeLoop (A.map (fun l => l.url)) A B).2.1).length = _
    rw [show (A.map (fun l => l.url)) = A.map LinkEntry.url from rfl, hchar.1, hchar.2,
      List.length_append, List.length_map]

/-- C2 witness: a concrete merge — primary has `u1` with size 0 and `u2`
with size 7; secondary has `u1` with size 4 and a new `u3`; the merged
manifest fills `u1`'s size from the secondary, keeps `u2`, appends `u3`, and
counts 2 + 1 entries. -/
theorem c2_witness :
    (([{ url := "u1", size_bytes := some 0 }, { url := "u2", size_bytes := some 7 }]
        : List LinkEntry).map LinkEntry.url).Nodup ∧
    (merge_links_files
        [{ url := "u1", size_bytes := some 0 }, { url := "u2", size_bytes := some 7 }]
        [{ url := "u1", size_bytes := some 4 }, { url := "u3", size_bytes := some 9 }]).backup
      = [{ url := "u1", size_bytes := some 0 }, { url := "u2", size_bytes := some 7 }] ∧
    (merge_links_files
        [{ url := "u1", size_bytes := some 0 }, { url := "u2", size_bytes := some 7 }]
        [{ url := "u1", size_bytes := some 4 }, { url := "u3", size_bytes := some 9 }]).merged.length
      = 2 + 1 := by
  have h := c2_merge_amended
    [{ url := "u1", size_bytes := some 0 }, { url := "u2", size_bytes := some 7 }]
    [{ url := "u1", size_bytes := some 4 }, { url := "u3", size_bytes := some 9 }]
    (by decide)
  exact ⟨by decide, h.1, by rw [h.2.2]; decide⟩

theorem processOne_not_saved {cfg : BatchCfg} {env : StepEnv} {e : LinkEntry}
    (hsetup : cfg.convert_god = true → pyLower (e.link_type.getD "") = "iso" →
      env.godSetupOk = true)
    (h : (processOne cfg env e).2 = false) : (processOne cfg env e).1 = e := by
  by_cases h5 : cfg.convert_god = true ∧ pyLower (e.link_type.getD "") = "iso"
  · have h6 := hsetup h5.1 h5.2
    by_cases h1 : enabledOf e <;> by_cases h2 : env.downloadOk <;>
      by_cases h3 : env.extractOk <;> by_cases h4 : env.copyOk <;>
        by_cases h7 : env.isoFound <;> cases hgp : env.godPath <;>
          simp [processOne, h1, h2, h3, h4, h5, h6, h7, hgp] at h ⊢
  · by_cases h1 : enabledOf e <;> by_cases h2 : env.downloadOk <;>
      by_cases h3 : env.extractOk <;> by_cases h4 : env.copyOk <;>
        simp [processOne, h1, h2, h3, h4, h5] at h ⊢

/-- C3 counterexample: with GOD conversion enabled, an ISO entry whose
download, extraction and copy succeed but whose GOD-conversion setup raises
(`os.makedirs` at `src/models/link.py:363` or `ISO2GODConverter()` at
`:374`, caught at `:419`) is mutated without a save: the step reports no
save, the entry changed, and after the entry the on-disk manifest differs
from the in-memory one — refuting "every mutation is followed by a full
manifest rewrite before the next entry". -/
theorem c3_counterexample :
    (processOne ⟨true, "out"⟩ ⟨true, true, true, false, false, none, "d"⟩
      { url := "http://x/g.zip", link_type := some "ISO" }).2 = false ∧
    (processOne ⟨true, "out"⟩ ⟨true, true, true, false, false, none, "d"⟩
        { url := "http://x/g.zip", link_type := some "ISO" }).1
      ≠ ({ url := "http://x/g.zip", link_type := some "ISO" } : LinkEntry) ∧
    (process_batch_trace ⟨true, "out"⟩
        [(⟨true, true, true, false, false, none, "d"⟩,
          { url := "http://x/g.zip", link_type := some "ISO" })]
        [] [{ url := "http://x/g.zip", link_type := some "ISO" }]).all
      (fun s => s.2 == s.1) = false := by
  refine ⟨?_, ?_, ?_⟩ <;> decide

/-- C3 amended: in runs where no entry hits the caught exception between
the flag mutations and the save (no ISO entry with GOD conversion enabled
has its conversion setup raise — in particular whenever GOD conversion is
off), the on-disk manifest equals the in-memory manifest after every entry
of `_process_batch`, and a step that changes its entry always runs the
save; hence an interrupted such run loses at most one entry's result. -/
theorem c3_per_entry_durability (cfg : BatchCfg)
    (pairs : List (StepEnv × LinkEntry)) (done disk : List LinkEntry)
    (h : disk = done ++ pairs.map Prod.snd)
    (hsetup : ∀ p ∈ pairs, cfg.convert_god = true →
      pyLower ((p.2).link_type.getD "") = "iso" → p.1.godSetupOk = true) :
    (∀ s ∈ process_batch_trace cfg pairs done disk, s.2 = s.1) ∧
    (∀ (env : StepEnv) (e : LinkEntry),
      (cfg.convert_god = true → pyLower (e.link_type.getD "") = "iso" →
        env.godSetupOk = true) →
      (processOne cfg env e).1 ≠ e → (processOne cfg env e).2 = true) := by
  have main : ∀ (ps : List (StepEnv × LinkEntry)) (dn dk : List LinkEntry),
      dk = dn ++ ps.map Prod.snd →
      (∀ p ∈ ps, cfg.convert_god = true →
        pyLower ((p.2).link_type.getD "") = "iso" → p.1.godSetupOk = true) →
      ∀ s ∈ process_batch_trace cfg ps dn dk, s.2 = s.1 := by
    intro ps
    induction ps with
    | nil =>
      intro dn dk _ _ s hs
      simp [process_batch_trace] at hs
    | cons p rest ih =>
      intro dn dk hdk hst s hs
      have hpsetup := hst p (List.mem_cons_self _ _)
      rw [process_batch_trace] at hs
      rcases List.mem_cons.mp hs with rfl | hs2
      · show (if (processOne cfg p.1 p.2).2
            then dn ++ (processOne cfg p.1 p.2).1 :: rest.map Prod.snd else dk) = _
        split
        · rfl
        · next hns =>
          rw [hdk]
          have he := processOne_not_saved hpsetup (Bool.not_eq_true _ ▸ hns)
          simp [he]
      · refine ih (dn ++ [(processOne cfg p.1 p.2).1]) _ ?_
          (fun q hq => hst q (List.mem_cons_of_mem _ hq)) s hs2
        split
        · simp
        · next hns =>
          have he := processOne_not_saved hpsetup (Bool.not_eq_true _ ▸ hns)
          rw [hdk, he]
          simp
  refine ⟨main pairs done disk h hsetup, ?_⟩
  intro env e hesetup hne
  by_contra hf
  exact hne (processOne_not_saved hesetup (Bool.not_eq_true _ ▸ hf))

/-- C3 witness: a two-entry batch (first succeeds, second fails its
download) with GOD conversion off, run from a disk state equal to the
loaded manifest, keeps disk and memory equal after each entry. -/
theorem c3_witness :
    ([{ url := "http://x/a.zip" }, { url := "http://x/b.zip" }] : List LinkEntry)
        = [] ++ ([(⟨true, true, true, true, false, none, "d"⟩, { url := "http://x/a.zip" }),
            (⟨false, false, false, true, false, none, "d"⟩, { url := "http://x/b.zip" })]
          : List (StepEnv × LinkEntry)).map Prod.snd ∧
    (∀ p ∈ ([(⟨true, true, true, true, false, none, "d"⟩, { url := "http://x/a.zip" }),
            (⟨false, false, false, true, false, none, "d"⟩, { url := "http://x/b.zip" })]
          : List (StepEnv × LinkEntry)),
      ((⟨false, "out"⟩ : BatchCfg).convert_god = true →
        pyLower ((p.2).link_type.getD "") = "iso" → p.1.godSetupOk = true)) ∧
    (process_batch_trace ⟨false, "out"⟩
        [(⟨true, true, true, true, false, none, "d"⟩, { url := "http://x/a.zip" }),
         (⟨false, false, false, true, false, none, "d"⟩, { url := "http://x/b.zip" })]
        [] [{ url := "http://x/a.zip" }, { url := "http://x/b.zip" }]).all
      (fun s => s.2 == s.1) = true := by
  have h := c3_per_entry_durability ⟨false, "out"⟩
    [(⟨true, true, true, true, false, none, "d"⟩, { url := "http://x/a.zip" }),
     (⟨false, false, false, true, false, none, "d"⟩, { url := "http://x/b.zip" })]
    [] [{ url := "http://x/a.zip" }, { url := "http://x/b.zip" }] rfl (by decide)
  refine ⟨rfl, by decide, ?_⟩
  rw [List.all_eq_true]
  intro s hs
  simpa using h.1 s hs

theorem convertLoop_silent_frozen (post : List LoopIter) :
    ∀ (pre : List LoopIter) (it : LoopIter) (la : ℚ),
      (∀ x ∈ pre, x.out = none ∧ x.err = none ∧ x.poll = none) →
      it.out = none → it.err = none → it.poll = none → it.t - la > 300 →
      convertLoop (pre ++ it :: post) la = .frozen := by
  intro pre
  induction pre with
  | nil =>
    intro it la _ ho he hp ht
    rw [List.nil_append, convertLoop]
    simp only [ho, he, hp, Option.isSome_none, Bool.false_eq_true, if_false]
    rw [if_pos ht]
  | cons x rest ih =>
    intro it la hpre ho he hp ht
    have hx := hpre x (List.mem_cons_self _ _)
    rw [List.cons_append, convertLoop]
    simp only [hx.1, hx.2.1, hx.2.2, Option.isSome_none, Bool.false_eq_true, if_false]
    split
    · rfl
    · exact ih it la (fun y hy => hpre y (List.mem_cons_of_mem _ hy)) ho he hp ht

theorem convertLoop_after_activity_frozen (post mid : List LoopIter)
    (act it : LoopIter)
    (hao : act.out.isSome = true ∨ act.err.isSome = true) (hap : act.poll = none)
    (hmid : ∀ x ∈ mid, x.out = none ∧ x.err = none ∧ x.poll = none)
    (ho : it.out = none) (he : it.err = none) (hp : it.poll = none)
    (ht : it.t - act.t > 300) :
    ∀ (pre : List LoopIter), (∀ x ∈ pre, x.poll = none) → ∀ la : ℚ,
      convertLoop (pre ++ act :: (mid ++ it :: post)) la = .frozen := by
  intro pre
  induction pre with
  | nil =>
    intro _ la
    have htail := convertLoop_silent_frozen post mid it act.t hmid ho he hp ht
    rw [List.nil_append, convertLoop]
    rcases hout : act.out with _ | v1 <;> rcases herr : act.err with _ | v2
    · rcases hao with hc | hc
      · rw [hout] at hc
        simp at hc
      · rw [herr] at hc
        simp at hc
    · simp only [hout, herr, Option.isSome_none, Option.isSome_some, if_true,
        Bool.false_eq_true, if_false, hap]
      rw [if_neg (by norm_num), htail]
    · simp only [hout, herr, Option.isSome_none, Option.isSome_some, if_true,
        Bool.false_eq_true, if_false, hap]
      rw [if_neg (by norm_num), htail]
    · simp only [hout, herr, Option.isSome_some, if_true, hap]
      rw [if_neg (by norm_num), htail]
  | cons x pre' ih =>
    intro hpre la
    have hx : x.poll = none := hpre x (List.mem_cons_self _ _)
    have htl := ih (fun y hy => hpre y (List.mem_cons_of_mem _ hy))
    rw [List.cons_append, convertLoop]
    cases hxo : x.out.isSome <;> cases hxe : x.err.isSome <;>
      simp only [hx, hxo, hxe, Bool.false_eq_true, if_false, if_true] <;>
      split <;> first | rfl | exact htl _

/-- C6: the liveness timeout fires in both of the claim's cases — measured
from process start (a run with no output at all) and measured from the last
line received (an output-bearing iteration refreshes `last_activity`, and
silence of more than 300 seconds after it triggers the kill): in either
case the subprocess is killed as frozen and `convert_iso_to_god` returns
`None`. -/
theorem c6_frozen_timeout :
    (∀ (start : ℚ) (pre post : List LoopIter) (it : LoopIter)
      (files : List String) (outDir : String),
      (∀ x ∈ pre, x.out = none ∧ x.err = none ∧ x.poll = none) →
      it.out = none → it.err = none → it.poll = none → it.t - start > 300 →
      convert_iso_to_god true start (pre ++ it :: post) files = .frozenKilled ∧
      convert_result outDir (convert_iso_to_god true start (pre ++ it :: post) files)
        = none) ∧
    (∀ (start : ℚ) (pre mid post : List LoopIter) (act it : LoopIter)
      (files : List String) (outDir : String),
      (∀ x ∈ pre, x.poll = none) →
      (act.out.isSome = true ∨ act.err.isSome = true) → act.poll = none →
      (∀ x ∈ mid, x.out = none ∧ x.err = none ∧ x.poll = none) →
      it.out = none → it.err = none → it.poll = none → it.t - act.t > 300 →
      convert_iso_to_god true start (pre ++ act :: (mid ++ it :: post)) files
        = .frozenKilled ∧
      convert_result outDir
        (convert_iso_to_god true start (pre ++ act :: (mid ++ it :: post)) files)
        = none) := by
  constructor
  · intro start pre post it files outDir hpre ho he hp ht
    have hloop := convertLoop_silent_frozen post pre it start hpre ho he hp ht
    constructor
    · rw [convert_iso_to_god]
      simp [hloop]
    · rw [convert_iso_to_god]
      simp [hloop, convert_result]
  · intro start pre mid post act it files outDir hpre hao hap hmid ho he hp ht
    have hloop := convertLoop_after_activity_frozen post mid act it hao hap hmid
      ho he hp ht pre hpre start
    constructor
    · rw [convert_iso_to_god]
      simp [hloop]
    · rw [convert_iso_to_god]
      simp [hloop, convert_result]

/-- C6 witness: a single silent iteration at t = 301 after a start at t = 0
is killed as frozen (start-measured case); and after a stdout line at
t = 10, a silent iteration at t = 311 is killed as frozen (last-line case) —
both with no result. -/
theorem c6_witness :
    ((⟨none, none, none, 301⟩ : LoopIter).t - 0 > 300) ∧
    convert_iso_to_god true 0 [⟨none, none, none, 301⟩] ["g.000"] = .frozenKilled ∧
    convert_result "out" (convert_iso_to_god true 0 [⟨none, none, none, 301⟩] ["g.000"])
      = none ∧
    ((⟨none, none, none, 311⟩ : LoopIter).t - (⟨some "line", none, none, 10⟩ : LoopIter).t
      > 300) ∧
    convert_iso_to_god true 0 [⟨some "line", none, none, 10⟩, ⟨none, none, none, 311⟩]
      ["g.000"] = .frozenKilled ∧
    convert_result "out" (convert_iso_to_god true 0
      [⟨some "line", none, none, 10⟩, ⟨none, none, none, 311⟩] ["g.000"]) = none := by
  have ht1 : ((⟨none, none, none, 301⟩ : LoopIter).t - 0 > 300) := by norm_num
  have ht2 : ((⟨none, none, none, 311⟩ : LoopIter).t
      - (⟨some "line", none, none, 10⟩ : LoopIter).t > 300) := by norm_num
  have h1 := c6_frozen_timeout.1 0 [] [] ⟨none, none, none, 301⟩ ["g.000"] "out"
    (by simp) rfl rfl rfl ht1
  have h2 := c6_frozen_timeout.2 0 [] [] [] ⟨some "line", none, none, 10⟩
    ⟨none, none, none, 311⟩ ["g.000"] "out" (by simp) (Or.inl rfl) rfl (by simp)
    rfl rfl rfl ht2
  exact ⟨ht1, h1.1, h1.2, ht2, h2.1, h2.2⟩

/-- C7: once the subprocess has exited with return code `rc`,
`convert_iso_to_god` returns a path exactly when `rc = 0` and some file in
the output directory ends in `.000`; the returned path is that of such a
file; and exit code 0 with no `.000` file is the distinct `noGodFiles`
failure (returning `None`). -/
theorem c7_success_signal (start : ℚ) (iters : List LoopIter)
    (files : List String) (outDir : String) (rc : Int)
    (h : convertLoop iters start = .exited rc) :
    ((∃ p, convert_result outDir (convert_iso_to_god true start iters files) = some p)
      ↔ (rc = 0 ∧ ∃ f ∈ files, pyEndswith f ".000" = true)) ∧
    (rc = 0 → files.filter (fun f => pyEndswith f ".000") = [] →
      convert_iso_to_god true start iters files = .noGodFiles ∧
      convert_result outDir (convert_iso_to_god true start iters files) = none) ∧
    (∀ p, convert_result outDir (convert_iso_to_god true start iters files) = some p →
      ∃ f ∈ files, pyEndswith f ".000" = true ∧ p = outDir ++ "/" ++ f) := by
  by_cases hrc : rc = 0
  · subst hrc
    rcases hfil : files.filter (fun f => pyEndswith f ".000") with _ | ⟨g, gs⟩
    · have hout : convert_iso_to_god true start iters files = .noGodFiles := by
        simp [convert_iso_to_god, h, hfil]
      refine ⟨?_, ?_, ?_⟩
      · rw [hout]
        constructor
        · rintro ⟨p, hp⟩
          simp [convert_result] at hp
        · rintro ⟨_, f, hf, he⟩
          have hmem : f ∈ files.filter (fun f => pyEndswith f ".000") :=
            List.mem_filter.mpr ⟨hf, he⟩
          rw [hfil] at hmem
          simp at hmem
      · intro _ _
        exact ⟨hout, by rw [hout]; rfl⟩
      · intro p hp
        rw [hout] at hp
        simp [convert_result] at hp
    · have hg : g ∈ files.filter (fun f => pyEndswith f ".000") := by
        rw [hfil]
        exact List.mem_cons_self g gs
      have hg2 := List.mem_filter.mp hg
      have hout : convert_iso_to_god true start iters files = .success g := by
        simp [convert_iso_to_god, h, hfil]
      refine ⟨?_, ?_, ?_⟩
      · rw [hout]
        constructor
        · intro _
          exact ⟨rfl, g, hg2.1, hg2.2⟩
        · intro _
          exact ⟨outDir ++ "/" ++ g, rfl⟩
      · intro _ hnil
        exact absurd hnil (by simp)
      · intro p hp
        rw [hout] at hp
        simp only [convert_result, Option.some.injEq] at hp
        exact ⟨g, hg2.1, hg2.2, hp.symm⟩
  · have hout : convert_iso_to_god true start iters files = .nonzeroExit rc := by
      simp [convert_iso_to_god, h, hrc]
    refine ⟨?_, ?_, ?_⟩
    · rw [hout]
      constructor
      · rintro ⟨p, hp⟩
        simp [convert_result] at hp
      · rintro ⟨h0, _⟩
        exact absurd h0 hrc
    · intro h0
      exact absurd h0 hrc
    · intro p hp
      rw [hout] at hp
      simp [convert_result] at hp

/-- C7 witness: a subprocess exiting 0 with `g.000` present yields the path
`out/g.000`; the same exit with no `.000` file yields `noGodFiles` and no
result. -/
theorem c7_witness :
    convertLoop [⟨none, none, some 0, 10⟩] 0 = .exited 0 ∧
    convert_result "out" (convert_iso_to_god true 0 [⟨none, none, some 0, 10⟩]
      ["g.000", "x.001"]) = some "out/g.000" ∧
    convert_iso_to_god true 0 [⟨none, none, some 0, 10⟩] ["x.001"] = .noGodFiles ∧
    convert_result "out" (convert_iso_to_god true 0 [⟨none, none, some 0, 10⟩]
      ["x.001"]) = none := by
  have hloop : convertLoop [⟨none, none, some 0, 10⟩] 0 = .exited 0 := rfl
  have h2 := c7_success_signal 0 [⟨none, none, some 0, 10⟩] ["x.001"] "out" 0 hloop
  have h1 := c7_success_signal 0 [⟨none, none, some 0, 10⟩] ["g.000", "x.001"] "out" 0 hloop
  refine ⟨hloop, ?_, (h2.2.1 rfl (by decide)).1, (h2.2.1 rfl (by decide)).2⟩
  rcases h1.1.mpr ⟨rfl, "g.000", by simp, by decide⟩ with ⟨p, hp⟩
  rcases h1.2.2 p hp with ⟨f, hf, he, rfl⟩
  rcases List.mem_cons.mp hf with rfl | hf2
  · exact hp
  · rcases List.mem_cons.mp hf2 with rfl | hf3
    · exact absurd he (by decide)
    · simp at hf3

/-- C5 counterexample: a URL whose extension (`.iso`) does not imply an
archive still gets the zip-structural check — a non-zip `.iso` download
fails the source's validation although the spec-side validation accepts
it. -/
theorem c5_counterexample :
    validate_download "tmp/a.iso" "http://x/a.iso" ⟨true, true, 100, false⟩ = false ∧
    spec_validate_download "tmp/a.iso" "http://x/a.iso" ⟨true, true, 100, false⟩ = true ∧
    download_file "http://x/a.iso" "tmp" ⟨true, true, 100, false⟩ = (none, true) := by
  refine ⟨?_, ?_, ?_⟩ <;> decide

/-- C5 amended: `_validate_download` applies the zip-structural check to
every file whatever its extension; when the request succeeded, a failed
validation returns no result while keeping the downloaded file, and a
passed validation returns the written path. -/
theorem c5_validation_amended (url tempDir : String) (env : DlEnv)
    (hreq : env.requestOk = true) :
    (env.validZip = false →
      validate_download (tempDir ++ "/" ++ pyBasename url) url env = false) ∧
    (validate_download (tempDir ++ "/" ++ pyBasename url) url env = false →
      download_file url tempDir env = (none, true)) ∧
    (validate_download (tempDir ++ "/" ++ pyBasename url) url env = true →
      download_file url tempDir env = (some (tempDir ++ "/" ++ pyBasename url), true)) := by
  refine ⟨?_, ?_, ?_⟩
  · intro hz
    unfold validate_download
    split
    · rfl
    · split
      · rfl
      · split
        · rfl
        · rw [if_pos]
          simp [hz]
  · intro hv
    simp [download_file, hreq, hv]
  · intro hv
    simp [download_file, hreq, hv]

/-- C5 witness: the `.iso` example — request ok, file written and non-empty
but not a zip — fails validation and the download returns no result with
the file kept. -/
theorem c5_witness :
    (⟨true, true, 100, false⟩ : DlEnv).requestOk = true ∧
    validate_download ("tmp" ++ "/" ++ pyBasename "http://x/a.iso")
      "http://x/a.iso" ⟨true, true, 100, false⟩ = false ∧
    download_file "http://x/a.iso" "tmp" ⟨true, true, 100, false⟩ = (none, true) := by
  have h := c5_validation_amended "http://x/a.iso" "tmp" ⟨true, true, 100, false⟩ rfl
  have hv := h.1 rfl
  exact ⟨rfl, hv, h.2.1 hv⟩

set_option maxHeartbeats 1000000 in
theorem c4_state_eval : process_links_by_size c4entries 21000 =
    { remaining := [], processedCount := 16003, realCum := 16000, batch := [],
      batchLoad := 0,
      bins := [[c4e "a" 9000, c4e "d" 1000], [c4e "b" 6000]],
      events := [⟨[9000, 6000, 5000, 1000], 0, 0, 9000⟩,
                 ⟨[6000, 5000, 1000], 9000, 9000, 1000⟩,
                 ⟨[6000, 5000], 0, 10000, 6000⟩] } := by
  norm_num [process_links_by_size, packLoop, bestFit, closeCond, closeBatch,
    forceStart, minQ, sizeMB, c4entries, c4e, sortBySizeDesc, insertBySizeDesc]

/-- C4: on entries of 9000/6000/5000/1000 MB with total cap 21000 MB the
packer produces the bins {9000,1000} and {6000}; every bin stays within the
10000 MB bound; the cumulative selected size stays within the 21000 MB cap;
every selection takes the largest remaining entry that fits the bin and
keeps the cumulative size under the cap; and the one unselected entry
(5000 MB) is exactly the one that would not have kept the cumulative size
under the cap. -/
theorem c4_by_size_packing :
    ((process_links_by_size c4entries 21000).bins.map (fun b => b.map sizeMB))
      = [[9000, 1000], [6000]] ∧
    (∀ b ∈ (process_links_by_size c4entries 21000).bins,
      (b.map sizeMB).sum ≤ 10000) ∧
    ((((process_links_by_size c4entries 21000).bins.flatten).map sizeMB).sum ≤ 21000) ∧
    (∀ ev ∈ (process_links_by_size c4entries 21000).events,
      selectsLargestFit 10000 21000 ev) ∧
    (∀ e ∈ c4entries, e ∉ (process_links_by_size c4entries 21000).bins.flatten →
      ¬ ((((process_links_by_size c4entries 21000).bins.flatten).map sizeMB).sum
        + sizeMB e < 21000)) := by
  refine ⟨?_, ?_, ?_, ?_, ?_⟩
  · rw [c4_state_eval]
    norm_num [sizeMB, c4e]
  · rw [c4_state_eval]
    intro b hb
    rcases List.mem_cons.mp hb with rfl | hb2
    · norm_num [sizeMB, c4e]
    · rcases List.mem_cons.mp hb2 with rfl | hb3
      · norm_num [sizeMB, c4e]
      · simp at hb3
  · rw [c4_state_eval]
    norm_num [sizeMB, c4e]
  · rw [c4_state_eval]
    intro ev hev
    rcases List.mem_cons.mp hev with rfl | hev2
    · refine ⟨by norm_num, by norm_num, by norm_num, ?_⟩
      intro s hs _ _
      simp only [List.mem_cons, List.not_mem_nil, or_false] at hs
      rcases hs with rfl | rfl | rfl | rfl
      · norm_num
      · norm_num
      · norm_num
      · norm_num
    · rcases List.mem_cons.mp hev2 with rfl | hev3
      · refine ⟨by norm_num, by norm_num, by norm_num, ?_⟩
        intro s hs hbin _
        simp only [List.mem_cons, List.not_mem_nil, or_false] at hs
        rcases hs with rfl | rfl | rfl
        · exfalso
          norm_num at hbin
        · exfalso
          norm_num at hbin
        · norm_num
      · rcases List.mem_cons.mp hev3 with rfl | hev4
        · refine ⟨by norm_num, by norm_num, by norm_num, ?_⟩
          intro s hs _ hcap
          simp only [List.mem_cons, List.not_mem_nil, or_false] at hs
          rcases hs with rfl | rfl
          · norm_num
          · norm_num
        · simp at hev4
  · rw [c4_state_eval]
    intro e he hne
    rcases List.mem_cons.mp he with rfl | he2
    · exact absurd (by decide) hne
    · rcases List.mem_cons.mp he2 with rfl | he3
      · exact absurd (by decide) hne
      · rcases List.mem_cons.mp he3 with rfl | he4
        · norm_num [sizeMB, c4e]
        · rcases List.mem_cons.mp he4 with rfl | he5
          · exact absurd (by decide) hne
          · simp at he5
